import Mathlib

/-!
Verification of the HTTP/1.x header parser and serializer (`src/header/header.rs`).

Bytes are modelled as `Nat`, buffers as `List Nat`.  The parser `parseHeader`,
the serializer `serialize` and the request/response accessors are translated
from `Header::parse`, `Header::serialize`, `RequestHeader` and `ResponseHeader`
in `src/header/header.rs`.  The delimiter-scanner helpers (`split_pat`,
`splitn_pat`, `collect_min`, `collect_exact`, `trim`) and the typed-data
validators (`Data<Ascii>`, `Data<HeaderFieldKey>`, `Data<Uri>`,
`Data<Integer>`) live in modules of the repository that are not part of the
given sources, so they are modelled from the specification's description of
them; each such definition is marked `Modelled from the spec:`.
-/

/-- Helper turning an ASCII string literal into its byte list. -/
def strBytes (s : String) : List Nat := s.data.map Char.toNat

/-- Modelled from the spec: ASCII whitespace, the class removed by the `trim`
helper (`helpers/slice_ext`, not under `src/`). -/
def isWs (b : Nat) : Bool := b == 32 || b == 9 || b == 10 || b == 12 || b == 13

/-- Modelled from the spec: left half of the whitespace-trimming helper. -/
def trimLeft : List Nat → List Nat
  | [] => []
  | x :: xs => if isWs x then trimLeft xs else x :: xs

/-- Modelled from the spec: the `trim` helper of `helpers/slice_ext` (not under
`src/`): strips surrounding ASCII whitespace. -/
def trim (xs : List Nat) : List Nat := ((trimLeft ((trimLeft xs).reverse)).reverse)

/-- Modelled from the spec: the Delimiter Scanner's leftmost-occurrence search,
specialized to the 4-byte header terminator `\r\n\r\n`. -/
def findTerm : List Nat → Option Nat
  | [] => none
  | x :: rest =>
    if List.isPrefixOf [13, 10, 13, 10] (x :: rest) then some 0
    else (findTerm rest).map (· + 1)

/-- Modelled from the spec: the Delimiter Scanner's leftmost-occurrence search,
specialized to the 1-byte field separator `:`. -/
def findColon : List Nat → Option Nat
  | [] => none
  | x :: rest => if x == 58 then some 0 else (findColon rest).map (· + 1)

/-- Modelled from the spec: `splitn_pat(2, b"\r\n\r\n")` — split at the first
terminator occurrence only; one piece when the terminator is absent. -/
def splitnTerm2 (xs : List Nat) : List (List Nat) :=
  match findTerm xs with
  | none => [xs]
  | some i => [xs.take i, xs.drop (i + 4)]

/-- Modelled from the spec: `splitn_pat(2, b":")` — split at the first colon
only; one piece when no colon is present. -/
def splitnColon2 (xs : List Nat) : List (List Nat) :=
  match findColon xs with
  | none => [xs]
  | some i => [xs.take i, xs.drop (i + 1)]

/-- Modelled from the spec: `split_pat(b"\r\n")` — split at every occurrence of
the 2-byte line delimiter. -/
def splitCRLF : List Nat → List (List Nat)
  | [] => [[]]
  | [x] => [[x]]
  | x :: y :: rest =>
    if x == 13 && y == 10 then [] :: splitCRLF rest
    else
      match splitCRLF (y :: rest) with
      | [] => [[x]]
      | z :: zs => (x :: z) :: zs

/-- Modelled from the spec: `split_pat(b" ")` — split at every single ASCII
space. -/
def splitSpace : List Nat → List (List Nat)
  | [] => [[]]
  | x :: rest =>
    if x == 32 then [] :: splitSpace rest
    else
      match splitSpace rest with
      | [] => [[x]]
      | z :: zs => (x :: z) :: zs

/-- Modelled from the spec: `collect_min(k)` — fail unless at least `k` pieces
were produced. -/
def collectMin (k : Nat) (ps : List (List Nat)) : Option (List (List Nat)) :=
  if k ≤ ps.length then some ps else none

/-- Modelled from the spec: `collect_exact(k)` — fail unless exactly `k` pieces
were produced. -/
def collectExact (k : Nat) (ps : List (List Nat)) : Option (List (List Nat)) :=
  if ps.length = k then some ps else none

/-- Modelled from the spec: a printable-ASCII byte, the byte class of the
`Ascii` lexical class. -/
def isPrintable (b : Nat) : Bool := decide (32 ≤ b) && decide (b ≤ 126)

/-- Modelled from the spec: the `Ascii` lexical class — every byte is
printable ASCII. -/
def asciiOKB (xs : List Nat) : Bool := xs.all isPrintable

/-- Modelled from the spec: `Data::<Ascii>::try_from` — the validation gate of
the `Ascii` typed wrapper (repository module `data`, not under `src/`). -/
def dataAscii (xs : List Nat) : Option (List Nat) :=
  if asciiOKB xs then some xs else none

/-- Modelled from the spec: an HTTP header-field-name byte (token character). -/
def isTchar (b : Nat) : Bool :=
  decide (48 ≤ b ∧ b ≤ 57) || decide (65 ≤ b ∧ b ≤ 90) || decide (97 ≤ b ∧ b ≤ 122) ||
  b == 33 || b == 35 || b == 36 || b == 37 || b == 38 || b == 39 || b == 42 ||
  b == 43 || b == 45 || b == 46 || b == 94 || b == 95 || b == 96 || b == 124 || b == 126

/-- Modelled from the spec: the header-field-name lexical class — nonempty and
made of token characters (an empty key fails the field-name grammar). -/
def fieldKeyOKB (xs : List Nat) : Bool := !xs.isEmpty && xs.all isTchar

/-- Modelled from the spec: `Data::<HeaderFieldKey>::try_from` — the key is
validated/trimmed as a header-field-name (repository module `data`, not under
`src/`). -/
def dataHeaderFieldKey (xs : List Nat) : Option (List Nat) :=
  if fieldKeyOKB (trim xs) then some (trim xs) else none

/-- Modelled from the spec: a decimal digit byte. -/
def isDigit (b : Nat) : Bool := decide (48 ≤ b ∧ b ≤ 57)

/-- Decimal value of a digit string. -/
def decimalValue (xs : List Nat) : Nat := xs.foldl (fun a b => a * 10 + (b - 48)) 0

/-- Modelled from the spec: `Data::<Integer>::try_from` — the decimal-integer
lexical class, yielding the arbitrary-width integer value. -/
def dataInteger (xs : List Nat) : Option Nat :=
  if !xs.isEmpty && xs.all isDigit then some (decimalValue xs) else none

/-- Modelled from the spec: a URI byte — printable ASCII, no space. -/
def isUriByte (b : Nat) : Bool := decide (33 ≤ b) && decide (b ≤ 126)

/-- Modelled from the spec: `Data::<Uri>::try_from` — the URI lexical class. -/
def dataUri (xs : List Nat) : Option (List Nat) :=
  if !xs.isEmpty && xs.all isUriByte then some xs else none

/-- The error type `HttpError` restricted to the kinds the header core raises. -/
inductive HttpError where
  | TruncatedData
  | ProtocolViolation
deriving DecidableEq

/-- The raw header: the status/request line triple and the field mapping.
The source's `HashMap` is modelled as an association list with last-wins
insertion; its iteration order is the list order. -/
structure Header where
  header_line : List Nat × List Nat × List Nat
  header_fields : List (List Nat × List Nat)
deriving DecidableEq

/-- `HashMap::insert`: replace any existing binding of the key, last-wins. -/
def insertField (m : List (List Nat × List Nat)) (k v : List Nat) :
    List (List Nat × List Nat) :=
  m.filter (fun e => decide (e.1 ≠ k)) ++ [(k, v)]

/-- `HashMap::get`: exact-match lookup in the field mapping. -/
def lookupField : List (List Nat × List Nat) → List Nat → Option (List Nat)
  | [], _ => none
  | kv :: rest, k => if kv.1 = k then some kv.2 else lookupField rest k

/-- One iteration of the field-line loop of `Header::parse`: split on the
first `:`, require ≥ 2 pieces, validate key and trimmed value. -/
def parseLine (line : List Nat) : Option (List Nat × List Nat) :=
  match collectMin 2 (splitnColon2 line) with
  | none => none
  | some kv =>
    match dataHeaderFieldKey (kv.getD 0 []), dataAscii (trim (kv.getD 1 [])) with
    | some k, some v => some (k, v)
    | _, _ => none

/-- The field-line loop of `Header::parse` (`while let Some(line) = ...`). -/
def parseFields : List (List Nat) → List (List Nat × List Nat) →
    Except HttpError (List (List Nat × List Nat))
  | [], m => .ok m
  | line :: rest, m =>
    match parseLine line with
    | none => .error .ProtocolViolation
    | some kv => parseFields rest (insertField m kv.1 kv.2)

/-- `Header::parse` from `src/header/header.rs`: split header from body at the
first `\r\n\r\n` (`TruncatedData` if absent), split the header block into
lines, parse the trimmed first line into exactly 3 space-separated tokens
(`ProtocolViolation` otherwise), then run the field-line loop. -/
def parseHeader (bytes : List Nat) : Except HttpError (Header × List Nat) :=
  match collectMin 2 (splitnTerm2 bytes) with
  | none => .error .TruncatedData
  | some hb =>
    match splitCRLF (hb.getD 0 []) with
    | [] => .error .ProtocolViolation
    | l1 :: rest =>
      match collectExact 3 (splitSpace (trim l1)) with
      | none => .error .ProtocolViolation
      | some toks =>
        match parseFields rest [] with
        | .error e => .error e
        | .ok m =>
          .ok (⟨(toks.getD 0 [], toks.getD 1 [], toks.getD 2 []), m⟩, hb.getD 1 [])

/-- `parse_request` (the `RequestHeader` facade adds no state). -/
def parseRequest (bytes : List Nat) : Except HttpError (Header × List Nat) :=
  parseHeader bytes

/-- `parse_response` (the `ResponseHeader` facade adds no state). -/
def parseResponse (bytes : List Nat) : Except HttpError (Header × List Nat) :=
  parseHeader bytes

/-- Lift a validator result into the accessor result type (a validation
failure surfaces as `ProtocolViolation`, per the spec's error model). -/
def toExcept (o : Option (List Nat)) : Except HttpError (List Nat) :=
  match o with
  | some a => .ok a
  | none => .error .ProtocolViolation

/-- `RequestHeader::method`: validate triple slot 0 as `Ascii`. -/
def requestMethod (h : Header) : Except HttpError (List Nat) :=
  toExcept (dataAscii h.header_line.1)

/-- `RequestHeader::uri`: validate triple slot 1 as `Uri`. -/
def requestUri (h : Header) : Except HttpError (List Nat) :=
  toExcept (dataUri h.header_line.2.1)

/-- `RequestHeader::version`: validate triple slot 2 as `Ascii`. -/
def requestVersion (h : Header) : Except HttpError (List Nat) :=
  toExcept (dataAscii h.header_line.2.2)

/-- `ResponseHeader::version`: validate triple slot 0 as `Ascii`. -/
def responseVersion (h : Header) : Except HttpError (List Nat) :=
  toExcept (dataAscii h.header_line.1)

/-- `ResponseHeader::status`: validate triple slot 1 as `Integer`, then narrow
to 16 unsigned bits, `ProtocolViolation` when out of range. -/
def responseStatus (h : Header) : Except HttpError Nat :=
  match dataInteger h.header_line.2.1 with
  | none => .error .ProtocolViolation
  | some n => if n < 65536 then .ok n else .error .ProtocolViolation

/-- `ResponseHeader::reason`: validate triple slot 2 as `Ascii`. -/
def responseReason (h : Header) : Except HttpError (List Nat) :=
  toExcept (dataAscii h.header_line.2.2)

/-- The per-field bytes written by `Header::serialize`:
`key ": " value "\r\n"` for each mapping entry, in iteration order. -/
def serTail : List (List Nat × List Nat) → List Nat
  | [] => []
  | kv :: fs => kv.1 ++ 58 :: 32 :: kv.2 ++ 13 :: 10 :: serTail fs

/-- `Header::serialize` from `src/header/header.rs`: the sink is modelled as
the produced byte list (first component); the second component is the
`written` counter exactly as the source accumulates it. -/
def serialize (h : Header) : List Nat × Nat :=
  let t := h.header_line
  let start : List Nat × Nat :=
    (t.1 ++ 32 :: t.2.1 ++ 32 :: t.2.2 ++ [13, 10],
     t.1.length + 1 + t.2.1.length + 1 + t.2.2.length + 2)
  let mid := h.header_fields.foldl
    (fun acc kv =>
      (acc.1 ++ kv.1 ++ 58 :: 32 :: kv.2 ++ [13, 10],
       acc.2 + (kv.1.length + 2 + kv.2.length + 2))) start
  (mid.1 ++ [13, 10], mid.2 + 2)

/-- The header block piece of the input (before the first terminator). -/
def headerBlockOf (bytes : List Nat) : List Nat := (splitnTerm2 bytes).getD 0 []

/-- The body piece of the input (after the first terminator). -/
def bodyOf (bytes : List Nat) : List Nat := (splitnTerm2 bytes).getD 1 []

/-- The lines of the header block. -/
def linesOf (bytes : List Nat) : List (List Nat) := splitCRLF (headerBlockOf bytes)

/-- The status/request line of the input. -/
def firstLineOf (bytes : List Nat) : List Nat := (linesOf bytes).getD 0 []

/-- The space-separated tokens of the trimmed status line. -/
def tokensOf (bytes : List Nat) : List (List Nat) := splitSpace (trim (firstLineOf bytes))

/-- The field lines of the input (all lines after the first). -/
def fieldLinesOf (bytes : List Nat) : List (List Nat) := (linesOf bytes).tail

/-- Join lines with the 2-byte line delimiter. -/
def joinCRLF : List (List Nat) → List Nat
  | [] => []
  | [l] => l
  | l :: ls => l ++ 13 :: 10 :: joinCRLF ls

/-- Wire bytes of a status/request line: three tokens joined by single
spaces. -/
def statusLineBytes (t : List Nat × List Nat × List Nat) : List Nat :=
  t.1 ++ 32 :: (t.2.1 ++ 32 :: t.2.2)

/-- Wire bytes of a field line: `key ": " value`. -/
def fieldLineBytes (kv : List Nat × List Nat) : List Nat :=
  kv.1 ++ 58 :: 32 :: kv.2

/-- Wire bytes of a whole header block: status line, field lines, each
terminated by `\r\n`, then the closing bare `\r\n`. -/
def renderBlock (t : List Nat × List Nat × List Nat)
    (fs : List (List Nat × List Nat)) : List Nat :=
  joinCRLF (statusLineBytes t :: fs.map fieldLineBytes) ++ [13, 10, 13, 10]

/-- A wire-format token: nonempty, printable ASCII, no space. -/
def tokenOKB (t : List Nat) : Bool :=
  !t.isEmpty && t.all (fun b => isPrintable b && b != 32)

/-- A wire-format field entry: valid field-name key, printable-ASCII value
carrying no surrounding whitespace. -/
def fieldOKB (kv : List Nat × List Nat) : Bool :=
  fieldKeyOKB kv.1 && asciiOKB kv.2 && trim kv.2 == kv.2

/-- Well-formedness of the data rendered into a syntactically valid header
block (spec §6 wire format). -/
def wellFormedB (t : List Nat × List Nat × List Nat)
    (fs : List (List Nat × List Nat)) : Bool :=
  tokenOKB t.1 && tokenOKB t.2.1 && tokenOKB t.2.2 && fs.all fieldOKB

/-- A byte buffer that is a syntactically valid header block per the spec's
wire format (§6), terminated by `\r\n\r\n`. -/
def ValidHeaderBlock (H : List Nat) : Prop :=
  ∃ t fs, wellFormedB t fs = true ∧ H = renderBlock t fs

/-- The value carried by the last field line whose parsed key is `k`. -/
def lastFieldValue (lines : List (List Nat)) (k : List Nat) : Option (List Nat) :=
  match lines with
  | [] => none
  | line :: rest =>
    match lastFieldValue rest k with
    | some v => some v
    | none =>
      match parseLine line with
      | some kv => if kv.1 = k then some kv.2 else none
      | none => none

deriving instance DecidableEq for Except

/-! ### Byte-class facts -/

theorem isWs_false_of_token (b : Nat) (hp : isPrintable b = true)
    (h32 : (b != 32) = true) : isWs b = false := by
  simp [isPrintable] at hp
  simp at h32
  simp [isWs]
  omega

theorem isWs_false_of_tchar (b : Nat) (h : isTchar b = true) : isWs b = false := by
  simp [isTchar] at h
  simp [isWs]
  omega

theorem ne_58_of_tchar (b : Nat) (h : isTchar b = true) : b ≠ 58 := by
  simp [isTchar] at h
  omega

theorem ne_13_of_tchar (b : Nat) (h : isTchar b = true) : b ≠ 13 := by
  simp [isTchar] at h
  omega

theorem ne_13_of_printable (b : Nat) (h : isPrintable b = true) : b ≠ 13 := by
  simp [isPrintable] at h
  omega

/-! ### Trim -/

theorem trimLeft_cons_of_not_ws {x : Nat} (xs : List Nat) (h : isWs x = false) :
    trimLeft (x :: xs) = x :: xs := by
  simp [trimLeft, h]

theorem trimLeft_eq_self_of_head {xs : List Nat}
    (h : ∀ b, xs.head? = some b → isWs b = false) : trimLeft xs = xs := by
  cases xs with
  | nil => rfl
  | cons x l => exact trimLeft_cons_of_not_ws l (h x rfl)

theorem trim_eq_self {xs : List Nat}
    (h1 : ∀ b, xs.head? = some b → isWs b = false)
    (h2 : ∀ b, xs.getLast? = some b → isWs b = false) : trim xs = xs := by
  unfold trim
  rw [trimLeft_eq_self_of_head h1]
  rw [trimLeft_eq_self_of_head (by intro b hb; exact h2 b (by rwa [List.head?_reverse] at hb))]
  exact List.reverse_reverse xs

theorem trim_eq_self_of_all {xs : List Nat} (h : ∀ b ∈ xs, isWs b = false) :
    trim xs = xs := by
  refine trim_eq_self (fun b hb => h b ?_) (fun b hb => h b ?_)
  · cases xs with
    | nil => simp at hb
    | cons x l =>
      simp at hb
      subst hb
      exact List.mem_cons_self x l
  · have : b ∈ xs.reverse := by
      rw [← List.head?_reverse] at hb
      cases hr : xs.reverse with
      | nil => rw [hr] at hb; simp at hb
      | cons y r =>
        rw [hr] at hb
        simp at hb
        subst hb
        exact List.mem_cons_self y r
    exact List.mem_reverse.mp this

theorem trim_cons_ws {a : Nat} (v : List Nat) (h : isWs a = true) :
    trim (a :: v) = trim v := by
  unfold trim
  rw [show trimLeft (a :: v) = trimLeft v from by simp [trimLeft, h]]

/-! ### Leftmost-occurrence search -/

theorem isPrefixOf_app (p t : List Nat) : List.isPrefixOf p (p ++ t) = true := by
  induction p with
  | nil => simp [List.isPrefixOf]
  | cons a p ih => simp [List.isPrefixOf, ih]

theorem isPrefixOf_exists {p l : List Nat} (h : List.isPrefixOf p l = true) :
    ∃ t, l = p ++ t := by
  simp at h
  obtain ⟨t, ht⟩ := h
  exact ⟨t, ht.symm⟩

theorem findColon_cons_of_ne {x : Nat} (xs : List Nat) (h : x ≠ 58) :
    findColon (x :: xs) = (findColon xs).map (· + 1) := by
  simp [findColon, h]

theorem findColon_not_mem {xs : List Nat} (h : 58 ∉ xs) : findColon xs = none := by
  induction xs with
  | nil => rfl
  | cons x l ih =>
    rw [findColon_cons_of_ne l (fun he => h (he ▸ List.mem_cons_self x l))]
    rw [ih (fun hm => h (List.mem_cons_of_mem x hm))]
    rfl

theorem findColon_append {a : List Nat} (xs : List Nat) (h : 58 ∉ a) :
    findColon (a ++ xs) = (findColon xs).map (· + a.length) := by
  induction a with
  | nil => cases h : findColon xs <;> simp [h]
  | cons x a ih =>
    rw [List.cons_append,
      findColon_cons_of_ne _ (fun he => h (he ▸ List.mem_cons_self x a)),
      ih (fun hm => h (List.mem_cons_of_mem x hm))]
    cases findColon xs <;> simp <;> omega

theorem term_not_isPrefixOf {x : Nat} (xs : List Nat) (h : x ≠ 13) :
    List.isPrefixOf [13, 10, 13, 10] (x :: xs) = false := by
  simp [List.isPrefixOf]
  intro h2
  omega

theorem findTerm_cons_of_ne {x : Nat} (xs : List Nat) (h : x ≠ 13) :
    findTerm (x :: xs) = (findTerm xs).map (· + 1) := by
  simp [findTerm, term_not_isPrefixOf xs h]

theorem findTerm_not_mem {xs : List Nat} (h : 13 ∉ xs) : findTerm xs = none := by
  induction xs with
  | nil => rfl
  | cons x l ih =>
    rw [findTerm_cons_of_ne l (fun he => h (he ▸ List.mem_cons_self x l))]
    rw [ih (fun hm => h (List.mem_cons_of_mem x hm))]
    rfl

theorem findTerm_append {a : List Nat} (xs : List Nat) (h : 13 ∉ a) :
    findTerm (a ++ xs) = (findTerm xs).map (· + a.length) := by
  induction a with
  | nil => cases h : findTerm xs <;> simp [h]
  | cons x a ih =>
    rw [List.cons_append,
      findTerm_cons_of_ne _ (fun he => h (he ▸ List.mem_cons_self x a)),
      ih (fun hm => h (List.mem_cons_of_mem x hm))]
    cases findTerm xs <;> simp <;> omega

theorem findTerm_self (b : List Nat) : findTerm (13 :: 10 :: 13 :: 10 :: b) = some 0 := by
  simp [findTerm, List.isPrefixOf]

theorem findTerm_crlf_cons {z : Nat} (w : List Nat) (h : z ≠ 13) :
    findTerm (13 :: 10 :: z :: w) = (findTerm (z :: w)).map (· + 2) := by
  have h1 : List.isPrefixOf [13, 10, 13, 10] (13 :: 10 :: z :: w) = false := by
    simp [List.isPrefixOf]
    intro h2
    omega
  rw [show findTerm (13 :: 10 :: z :: w)
      = (findTerm (10 :: z :: w)).map (· + 1) from by simp [findTerm, h1]]
  rw [findTerm_cons_of_ne _ (by omega)]
  cases findTerm (z :: w) <;> simp

theorem findTerm_none_iff (xs : List Nat) :
    findTerm xs = none ↔ ¬ ∃ a b, xs = a ++ 13 :: 10 :: 13 :: 10 :: b := by
  induction xs with
  | nil =>
    constructor
    · rintro - ⟨a, b, hab⟩
      cases a <;> simp at hab
    · intro
      rfl
  | cons x xs ih =>
    by_cases hp : List.isPrefixOf [13, 10, 13, 10] (x :: xs) = true
    · constructor
      · intro h
        simp [findTerm, hp] at h
      · intro hr
        exfalso
        obtain ⟨t, ht⟩ := isPrefixOf_exists hp
        exact hr ⟨[], t, by simpa using ht⟩
    · have hp' : List.isPrefixOf [13, 10, 13, 10] (x :: xs) = false :=
        Bool.eq_false_iff.mpr hp
      rw [show findTerm (x :: xs) = (findTerm xs).map (· + 1) from by
        simp [findTerm, hp']]
      rw [Option.map_eq_none']
      rw [ih]
      constructor
      · intro h ⟨a, b, hab⟩
        cases a with
        | nil =>
          simp at hab
          obtain ⟨hx, hxs⟩ := hab
          subst hx
          subst hxs
          simp [List.isPrefixOf] at hp'
        | cons a0 a' =>
          simp at hab
          exact h ⟨a', b, hab.2⟩
      · intro h ⟨a, b, hab⟩
        exact h ⟨x :: a, b, by simp [hab]⟩

/-! ### Splitting on spaces -/

theorem splitSpace_ne_nil (xs : List Nat) : splitSpace xs ≠ [] := by
  induction xs with
  | nil => simp [splitSpace]
  | cons x l ih =>
    simp only [splitSpace]
    by_cases h : (x == 32) = true
    · simp [h]
    · rw [if_neg (by simpa using h)]
      cases hs : splitSpace l with
      | nil => exact absurd hs ih
      | cons z zs => simp

theorem splitSpace_cons_space (xs : List Nat) : splitSpace (32 :: xs) = [] :: splitSpace xs := by
  simp [splitSpace]

theorem splitSpace_not_mem {xs : List Nat} (h : 32 ∉ xs) : splitSpace xs = [xs] := by
  induction xs with
  | nil => rfl
  | cons x l ih =>
    have hx : (x == 32) = false := by
      simp
      exact fun he => h (he ▸ List.mem_cons_self x l)
    simp only [splitSpace, hx, Bool.false_eq_true, if_false]
    rw [ih (fun hm => h (List.mem_cons_of_mem x hm))]

theorem splitSpace_append {a : List Nat} (xs : List Nat) (h : 32 ∉ a) :
    splitSpace (a ++ xs) = (splitSpace xs).modifyHead (a ++ ·) := by
  induction a with
  | nil =>
    cases hs : splitSpace xs with
    | nil => exact absurd hs (splitSpace_ne_nil xs)
    | cons z zs => simp [hs]
  | cons x a ih =>
    have hx : (x == 32) = false := by
      simp
      exact fun he => h (he ▸ List.mem_cons_self x a)
    rw [List.cons_append]
    simp only [splitSpace, hx, Bool.false_eq_true, if_false]
    rw [ih (fun hm => h (List.mem_cons_of_mem x hm))]
    cases hs : splitSpace xs with
    | nil => exact absurd hs (splitSpace_ne_nil xs)
    | cons z zs => simp

/-! ### Splitting on the line delimiter -/

theorem splitCRLF_ne_nil (xs : List Nat) : splitCRLF xs ≠ [] := by
  induction xs with
  | nil => simp [splitCRLF]
  | cons x t ih =>
    cases t with
    | nil => simp [splitCRLF]
    | cons y rest =>
      simp only [splitCRLF]
      by_cases h : (x == 13 && y == 10) = true
      · simp [h]
      · rw [if_neg (by simpa using h)]
        cases hs : splitCRLF (y :: rest) with
        | nil => exact absurd hs ih
        | cons z zs => simp

theorem splitCRLF_crlf (xs : List Nat) : splitCRLF (13 :: 10 :: xs) = [] :: splitCRLF xs := by
  simp [splitCRLF]

theorem splitCRLF_not_mem {xs : List Nat} (h : 13 ∉ xs) : splitCRLF xs = [xs] := by
  induction xs with
  | nil => rfl
  | cons x t ih =>
    have hx : (x == 13) = false := by
      simp
      exact fun he => h (he ▸ List.mem_cons_self x t)
    cases t with
    | nil => simp [splitCRLF]
    | cons y rest =>
      simp only [splitCRLF, hx, Bool.false_and, Bool.false_eq_true, if_false]
      rw [ih (fun hm => h (List.mem_cons_of_mem x hm))]

theorem splitCRLF_append {a : List Nat} (xs : List Nat) (h : 13 ∉ a) :
    splitCRLF (a ++ xs) = (splitCRLF xs).modifyHead (a ++ ·) := by
  induction a with
  | nil =>
    cases hs : splitCRLF xs with
    | nil => exact absurd hs (splitCRLF_ne_nil xs)
    | cons z zs => simp [hs]
  | cons x a ih =>
    have hx : (x == 13) = false := by
      simp
      exact fun he => h (he ▸ List.mem_cons_self x a)
    have ih' := ih (fun hm => h (List.mem_cons_of_mem x hm))
    rw [List.cons_append]
    cases haxs : a ++ xs with
    | nil =>
      obtain ⟨ha, hxs⟩ := List.append_eq_nil.mp haxs
      subst ha
      subst hxs
      simp [splitCRLF]
    | cons y rest =>
      simp only [splitCRLF, hx, Bool.false_and, Bool.false_eq_true, if_false]
      rw [← haxs, ih']
      cases hs : splitCRLF xs with
      | nil => exact absurd hs (splitCRLF_ne_nil xs)
      | cons z zs => simp

/-! ### Joining lines -/

theorem joinCRLF_pair (l m : List Nat) (ms : List (List Nat)) :
    joinCRLF (l :: m :: ms) = l ++ 13 :: 10 :: joinCRLF (m :: ms) := by
  simp [joinCRLF]

theorem splitCRLF_join (lines : List (List Nat)) (h13 : ∀ l ∈ lines, 13 ∉ l)
    (hne : lines ≠ []) : splitCRLF (joinCRLF lines) = lines := by
  induction lines with
  | nil => exact absurd rfl hne
  | cons l ls ih =>
    cases ls with
    | nil => exact splitCRLF_not_mem (h13 l (List.mem_cons_self l []))
    | cons m ms =>
      rw [joinCRLF_pair]
      rw [splitCRLF_append _ (h13 l (List.mem_cons_self l (m :: ms)))]
      rw [splitCRLF_crlf]
      rw [ih (fun x hx => h13 x (List.mem_cons_of_mem l hx)) (by simp)]
      simp

theorem findTerm_join (lines : List (List Nat)) (body : List Nat)
    (h13 : ∀ l ∈ lines, 13 ∉ l) (hne0 : ∀ l ∈ lines, l ≠ []) (hne : lines ≠ []) :
    findTerm (joinCRLF lines ++ 13 :: 10 :: 13 :: 10 :: body) =
      some (joinCRLF lines).length := by
  induction lines with
  | nil => exact absurd rfl hne
  | cons l ls ih =>
    cases ls with
    | nil =>
      show findTerm (l ++ 13 :: 10 :: 13 :: 10 :: body) = some (joinCRLF [l]).length
      rw [findTerm_append _ (h13 l (List.mem_cons_self l []))]
      rw [findTerm_self]
      simp [joinCRLF]
    | cons m ms =>
      have hlm : 13 ∉ l := h13 l (List.mem_cons_self l (m :: ms))
      have hm13 : 13 ∉ m := h13 m (List.mem_cons_of_mem l (List.mem_cons_self m ms))
      have hmne : m ≠ [] := hne0 m (List.mem_cons_of_mem l (List.mem_cons_self m ms))
      obtain ⟨c, m', hm⟩ : ∃ c m', m = c :: m' := by
        cases m with
        | nil => exact absurd rfl hmne
        | cons c m' => exact ⟨c, m', rfl⟩
      have hc : c ≠ 13 := fun he => hm13 (he ▸ hm ▸ List.mem_cons_self c m')
      obtain ⟨w, hw⟩ : ∃ w, joinCRLF (m :: ms) ++ 13 :: 10 :: 13 :: 10 :: body = c :: w := by
        cases ms with
        | nil => exact ⟨m' ++ 13 :: 10 :: 13 :: 10 :: body, by simp [joinCRLF, hm]⟩
        | cons p ps =>
          exact ⟨(m' ++ 13 :: 10 :: joinCRLF (p :: ps)) ++ 13 :: 10 :: 13 :: 10 :: body,
            by rw [joinCRLF_pair, hm]; simp⟩
      have hrec := ih (fun x hx => h13 x (List.mem_cons_of_mem l hx))
        (fun x hx => hne0 x (List.mem_cons_of_mem l hx)) (by simp)
      rw [joinCRLF_pair]
      rw [List.append_assoc, List.cons_append, List.cons_append]
      rw [findTerm_append _ hlm]
      rw [show (13 : Nat) :: 10 :: (joinCRLF (m :: ms) ++ 13 :: 10 :: 13 :: 10 :: body)
          = 13 :: 10 :: c :: w from by rw [hw]]
      rw [findTerm_crlf_cons w hc]
      rw [← hw, hrec]
      simp
      omega

/-! ### Consequences of the wire-format classes -/

theorem tokenOKB_facts {t : List Nat} (h : tokenOKB t = true) :
    t ≠ [] ∧ (∀ b ∈ t, isWs b = false) ∧ 32 ∉ t ∧ 13 ∉ t := by
  simp only [tokenOKB, Bool.and_eq_true, List.all_eq_true] at h
  obtain ⟨hne, hall⟩ := h
  refine ⟨by simpa using hne,
    fun b hb => isWs_false_of_token b (hall b hb).1 (hall b hb).2, ?_, ?_⟩
  · intro hm
    have := (hall 32 hm).2
    simp at this
  · intro hm
    exact ne_13_of_printable 13 (hall 13 hm).1 rfl

theorem fieldKeyOKB_facts {k : List Nat} (h : fieldKeyOKB k = true) :
    k ≠ [] ∧ (∀ b ∈ k, isWs b = false) ∧ 58 ∉ k ∧ 13 ∉ k := by
  simp only [fieldKeyOKB, Bool.and_eq_true, List.all_eq_true] at h
  obtain ⟨hne, hall⟩ := h
  refine ⟨by simpa using hne, fun b hb => isWs_false_of_tchar b (hall b hb), ?_, ?_⟩
  · intro hm
    exact ne_58_of_tchar 58 (hall 58 hm) rfl
  · intro hm
    exact ne_13_of_tchar 13 (hall 13 hm) rfl

theorem asciiOKB_not13 {v : List Nat} (h : asciiOKB v = true) : 13 ∉ v := by
  simp only [asciiOKB, List.all_eq_true] at h
  intro hm
  exact ne_13_of_printable 13 (h 13 hm) rfl

theorem fieldOKB_facts {kv : List Nat × List Nat} (h : fieldOKB kv = true) :
    fieldKeyOKB kv.1 = true ∧ asciiOKB kv.2 = true ∧ trim kv.2 = kv.2 := by
  simp only [fieldOKB, Bool.and_eq_true, beq_iff_eq] at h
  exact ⟨h.1.1, h.1.2, h.2⟩

theorem fieldLineBytes_not13 {kv : List Nat × List Nat} (h : fieldOKB kv = true) :
    13 ∉ fieldLineBytes kv := by
  obtain ⟨hk, hv, -⟩ := fieldOKB_facts h
  intro hm
  simp only [fieldLineBytes, List.mem_append, List.mem_cons] at hm
  rcases hm with hm | hm | hm | hm
  · exact (fieldKeyOKB_facts hk).2.2.2 hm
  · omega
  · omega
  · exact asciiOKB_not13 hv hm

theorem fieldLineBytes_ne_nil {kv : List Nat × List Nat} (h : fieldOKB kv = true) :
    fieldLineBytes kv ≠ [] := by
  obtain ⟨hk, -, -⟩ := fieldOKB_facts h
  obtain ⟨hne, -⟩ := fieldKeyOKB_facts hk
  simp only [fieldLineBytes]
  intro he
  exact hne (List.append_eq_nil.mp he).1

theorem statusLineBytes_not13 {t : List Nat × List Nat × List Nat}
    (h1 : tokenOKB t.1 = true) (h2 : tokenOKB t.2.1 = true) (h3 : tokenOKB t.2.2 = true) :
    13 ∉ statusLineBytes t := by
  intro hm
  simp only [statusLineBytes, List.mem_append, List.mem_cons] at hm
  rcases hm with hm | hm | hm | hm | hm
  · exact (tokenOKB_facts h1).2.2.2 hm
  · omega
  · exact (tokenOKB_facts h2).2.2.2 hm
  · omega
  · exact (tokenOKB_facts h3).2.2.2 hm

theorem statusLineBytes_ne_nil (t : List Nat × List Nat × List Nat) :
    statusLineBytes t ≠ [] := by
  simp only [statusLineBytes]
  intro he
  have := (List.append_eq_nil.mp he).2
  simp at this

theorem trim_statusLineBytes {t : List Nat × List Nat × List Nat}
    (h1 : tokenOKB t.1 = true) (h3 : tokenOKB t.2.2 = true) :
    trim (statusLineBytes t) = statusLineBytes t := by
  obtain ⟨hne1, hws1, -, -⟩ := tokenOKB_facts h1
  obtain ⟨hne3, hws3, -, -⟩ := tokenOKB_facts h3
  refine trim_eq_self ?_ ?_
  · intro b hb
    obtain ⟨c, r, hc⟩ : ∃ c r, t.1 = c :: r := by
      cases ht : t.1 with
      | nil => exact absurd ht hne1
      | cons c r => exact ⟨c, r, rfl⟩
    rw [show statusLineBytes t = c :: (r ++ 32 :: (t.2.1 ++ 32 :: t.2.2)) from by
      simp [statusLineBytes, hc]] at hb
    simp at hb
    rw [← hb]
    exact hws1 c (by rw [hc]; exact List.mem_cons_self c r)
  · intro b hb
    rcases List.eq_nil_or_concat t.2.2 with hcon | ⟨init, lb, hcon⟩
    · exact absurd hcon hne3
    · rw [show statusLineBytes t = (t.1 ++ 32 :: (t.2.1 ++ 32 :: init)) ++ [lb] from by
        simp [statusLineBytes, hcon, List.concat_eq_append]] at hb
      rw [List.getLast?_concat] at hb
      simp at hb
      rw [← hb]
      refine hws3 lb ?_
      rw [hcon, List.concat_eq_append]
      simp

theorem splitSpace_statusLineBytes {t : List Nat × List Nat × List Nat}
    (h1 : tokenOKB t.1 = true) (h2 : tokenOKB t.2.1 = true) (h3 : tokenOKB t.2.2 = true) :
    splitSpace (statusLineBytes t) = [t.1, t.2.1, t.2.2] := by
  obtain ⟨-, -, hm1, -⟩ := tokenOKB_facts h1
  obtain ⟨-, -, hm2, -⟩ := tokenOKB_facts h2
  obtain ⟨-, -, hm3, -⟩ := tokenOKB_facts h3
  show splitSpace (t.1 ++ 32 :: (t.2.1 ++ 32 :: t.2.2)) = [t.1, t.2.1, t.2.2]
  rw [splitSpace_append _ hm1, splitSpace_cons_space]
  rw [splitSpace_append _ hm2, splitSpace_cons_space]
  rw [splitSpace_not_mem hm3]
  simp

/-! ### The field-line loop on rendered field lines -/

theorem parseLine_render {kv : List Nat × List Nat} (h : fieldOKB kv = true) :
    parseLine (fieldLineBytes kv) = some kv := by
  obtain ⟨hk, hv, ht⟩ := fieldOKB_facts h
  obtain ⟨-, hkws, hk58, -⟩ := fieldKeyOKB_facts hk
  have hfind : findColon (kv.1 ++ 58 :: 32 :: kv.2) = some kv.1.length := by
    rw [findColon_append _ hk58]
    simp [findColon]
  have htake : (kv.1 ++ 58 :: 32 :: kv.2).take kv.1.length = kv.1 := List.take_left _ _
  have hdrop : (kv.1 ++ 58 :: 32 :: kv.2).drop (kv.1.length + 1) = 32 :: kv.2 := by
    rw [show kv.1 ++ 58 :: 32 :: kv.2 = (kv.1 ++ [58]) ++ 32 :: kv.2 from by simp]
    rw [show kv.1.length + 1 = (kv.1 ++ [58]).length from by simp]
    exact List.drop_left _ _
  have hsplit : splitnColon2 (kv.1 ++ 58 :: 32 :: kv.2) = [kv.1, 32 :: kv.2] := by
    simp only [splitnColon2, hfind, htake, hdrop]
  have hkey : dataHeaderFieldKey kv.1 = some kv.1 := by
    simp [dataHeaderFieldKey, trim_eq_self_of_all hkws, hk]
  have hval : dataAscii (trim (32 :: kv.2)) = some kv.2 := by
    rw [trim_cons_ws _ (by simp [isWs]), ht]
    simp [dataAscii, hv]
  show parseLine (kv.1 ++ 58 :: 32 :: kv.2) = some kv
  simp [parseLine, hsplit, collectMin, hkey, hval]

theorem parseFields_map_render {fs : List (List Nat × List Nat)}
    (hall : ∀ kv ∈ fs, fieldOKB kv = true) (m : List (List Nat × List Nat)) :
    parseFields (fs.map fieldLineBytes) m =
      .ok (fs.foldl (fun m kv => insertField m kv.1 kv.2) m) := by
  induction fs generalizing m with
  | nil => rfl
  | cons kv fs ih =>
    have hpl := parseLine_render (hall kv (List.mem_cons_self kv fs))
    simp only [List.map_cons, parseFields, hpl]
    rw [ih (fun x hx => hall x (List.mem_cons_of_mem kv hx))]
    rw [List.foldl_cons]

theorem foldl_insertField_nodup :
    ∀ (fs : List (List Nat × List Nat)) (m : List (List Nat × List Nat)),
    (fs.map Prod.fst).Nodup → (∀ kv ∈ m, kv.1 ∉ fs.map Prod.fst) →
    fs.foldl (fun m kv => insertField m kv.1 kv.2) m = m ++ fs := by
  intro fs
  induction fs with
  | nil => intro m _ _; simp
  | cons kv fs ih =>
    intro m hnd hm
    rw [List.foldl_cons]
    have hins : insertField m kv.1 kv.2 = m ++ [kv] := by
      unfold insertField
      rw [List.filter_eq_self.mpr ?_]
      intro e he
      have : e.1 ∉ (kv :: fs).map Prod.fst := hm e he
      simp only [List.map_cons, List.mem_cons] at this
      simp
      exact fun hc => this (Or.inl hc)
    rw [hins]
    rw [ih (m ++ [kv]) (List.nodup_cons.mp (by simpa using hnd)).2 ?_]
    · simp
    · intro e he
      rcases List.mem_append.mp he with he | he
      · intro hc
        exact hm e he (by simp only [List.map_cons, List.mem_cons]; exact Or.inr hc)
      · rw [List.mem_singleton.mp he]
        exact (List.nodup_cons.mp (by simpa using hnd)).1

/-! ### Serialization unfolded -/

theorem serialize_foldl (fs : List (List Nat × List Nat)) :
    ∀ acc : List Nat × Nat,
    (fs.foldl (fun acc kv =>
        (acc.1 ++ kv.1 ++ 58 :: 32 :: kv.2 ++ [13, 10],
         acc.2 + (kv.1.length + 2 + kv.2.length + 2))) acc)
      = (acc.1 ++ serTail fs, acc.2 + (serTail fs).length) := by
  induction fs with
  | nil => intro acc; simp [serTail]
  | cons kv fs ih =>
    intro acc
    rw [List.foldl_cons, ih]
    simp [serTail, Prod.ext_iff, List.append_assoc]
    omega

theorem serialize_bytes (h : Header) :
    (serialize h).1 =
      h.header_line.1 ++ 32 :: (h.header_line.2.1 ++ 32 :: (h.header_line.2.2
        ++ 13 :: 10 :: (serTail h.header_fields ++ [13, 10]))) := by
  simp only [serialize]
  rw [serialize_foldl]
  simp [List.append_assoc]

theorem serialize_count (h : Header) : (serialize h).2 = (serialize h).1.length := by
  simp only [serialize]
  rw [serialize_foldl]
  simp [List.length_append]
  omega

theorem renderBlock_eq_ser (t : List Nat × List Nat × List Nat)
    (fs : List (List Nat × List Nat)) :
    renderBlock t fs =
      t.1 ++ 32 :: (t.2.1 ++ 32 :: (t.2.2 ++ 13 :: 10 :: (serTail fs ++ [13, 10]))) := by
  suffices hb : ∀ (sl : List Nat),
      joinCRLF (sl :: fs.map fieldLineBytes) ++ [13, 10, 13, 10]
        = sl ++ 13 :: 10 :: (serTail fs ++ [13, 10]) by
    unfold renderBlock
    rw [hb (statusLineBytes t)]
    simp [statusLineBytes, List.append_assoc]
  clear t
  induction fs with
  | nil => intro sl; simp [joinCRLF, serTail]
  | cons kv fs ih =>
    intro sl
    rw [List.map_cons, joinCRLF_pair]
    simp only [List.append_assoc, List.cons_append]
    rw [ih (fieldLineBytes kv)]
    simp [serTail, fieldLineBytes, List.append_assoc]

/-! ### Parsing a rendered header block -/

theorem parseHeader_render (t : List Nat × List Nat × List Nat)
    (fs : List (List Nat × List Nat)) (hwf : wellFormedB t fs = true) :
    parseHeader (renderBlock t fs) =
      .ok (⟨t, fs.foldl (fun m kv => insertField m kv.1 kv.2) []⟩, []) := by
  simp only [wellFormedB, Bool.and_eq_true, List.all_eq_true] at hwf
  obtain ⟨⟨⟨h1, h2⟩, h3⟩, hfs⟩ := hwf
  have hlines13 : ∀ l ∈ statusLineBytes t :: fs.map fieldLineBytes, 13 ∉ l := by
    intro l hl
    rcases List.mem_cons.mp hl with hl | hl
    · rw [hl]
      exact statusLineBytes_not13 h1 h2 h3
    · obtain ⟨kv, hkv, hfl⟩ := List.mem_map.mp hl
      rw [← hfl]
      exact fieldLineBytes_not13 (hfs kv hkv)
  have hlinesne : ∀ l ∈ statusLineBytes t :: fs.map fieldLineBytes, l ≠ [] := by
    intro l hl
    rcases List.mem_cons.mp hl with hl | hl
    · rw [hl]
      exact statusLineBytes_ne_nil t
    · obtain ⟨kv, hkv, hfl⟩ := List.mem_map.mp hl
      rw [← hfl]
      exact fieldLineBytes_ne_nil (hfs kv hkv)
  have hfind : findTerm (renderBlock t fs) =
      some (joinCRLF (statusLineBytes t :: fs.map fieldLineBytes)).length :=
    findTerm_join _ [] hlines13 hlinesne (by simp)
  have hsplitn : splitnTerm2 (renderBlock t fs) =
      [joinCRLF (statusLineBytes t :: fs.map fieldLineBytes), []] := by
    simp only [splitnTerm2, hfind]
    unfold renderBlock
    rw [List.take_left]
    rw [List.drop_eq_nil_of_le (by simp)]
  have hcm : collectMin 2 [joinCRLF (statusLineBytes t :: fs.map fieldLineBytes), []] =
      some [joinCRLF (statusLineBytes t :: fs.map fieldLineBytes), []] := by
    simp [collectMin]
  have hsplitCRLF : splitCRLF (joinCRLF (statusLineBytes t :: fs.map fieldLineBytes)) =
      statusLineBytes t :: fs.map fieldLineBytes :=
    splitCRLF_join _ hlines13 (by simp)
  have htrim : trim (statusLineBytes t) = statusLineBytes t := trim_statusLineBytes h1 h3
  have hspace : splitSpace (statusLineBytes t) = [t.1, t.2.1, t.2.2] :=
    splitSpace_statusLineBytes h1 h2 h3
  have hce : collectExact 3 [t.1, t.2.1, t.2.2] = some [t.1, t.2.1, t.2.2] := by
    simp [collectExact]
  have hfields : parseFields (fs.map fieldLineBytes) [] =
      .ok (fs.foldl (fun m kv => insertField m kv.1 kv.2) []) :=
    parseFields_map_render hfs []
  unfold parseHeader
  rw [hsplitn, hcm]
  simp only [List.getD_cons_zero, List.getD_cons_succ, hsplitCRLF, htrim, hspace, hce,
    hfields]

/-! ### C1 — round-trip -/

/-- C1 (amended): for every syntactically valid header block whose field names
are pairwise distinct, parsing succeeds and serializing the parsed header
yields a block with a byte-identical status line whose field lines are a
permutation of the original block's field lines. -/
theorem c1_round_trip (t : List Nat × List Nat × List Nat)
    (fs : List (List Nat × List Nat)) (hwf : wellFormedB t fs = true)
    (hnd : (fs.map Prod.fst).Nodup) :
    ∃ fsOut, List.Perm fsOut fs ∧
      parseHeader (renderBlock t fs) = .ok (⟨t, fsOut⟩, []) ∧
      (serialize (Header.mk t fsOut)).1 = renderBlock t fsOut := by
  refine ⟨fs, List.Perm.refl fs, ?_, ?_⟩
  · rw [parseHeader_render t fs hwf]
    rw [foldl_insertField_nodup fs [] hnd (by simp)]
    simp
  · rw [serialize_bytes, renderBlock_eq_ser]

/-- Witness for C1 at a concrete valid block. -/
theorem c1_round_trip_witness :
    ∃ fsOut, List.Perm fsOut [(strBytes ("Host"), strBytes ("a.com"))] ∧
      parseHeader (renderBlock (strBytes ("GET"), strBytes ("/x"), strBytes ("HTTP/1.1"))
          [(strBytes ("Host"), strBytes ("a.com"))]) =
        .ok (⟨(strBytes ("GET"), strBytes ("/x"), strBytes ("HTTP/1.1")), fsOut⟩, []) ∧
      (serialize (Header.mk (strBytes ("GET"), strBytes ("/x"), strBytes ("HTTP/1.1"))
          fsOut)).1 =
        renderBlock (strBytes ("GET"), strBytes ("/x"), strBytes ("HTTP/1.1")) fsOut :=
  c1_round_trip (strBytes ("GET"), strBytes ("/x"), strBytes ("HTTP/1.1"))
    [(strBytes ("Host"), strBytes ("a.com"))] (by decide) (by decide)

/-- Counterexample to C1 as stated: the block `A b c\r\nK: 1\r\nK: 2\r\n\r\n`
is syntactically valid, parses, but serializing the parsed header drops the
`K: 1` line (last-wins), so the output's field lines are not a permutation of
the input's. -/
theorem c1_counterexample :
    ValidHeaderBlock (strBytes ("A b c\r\nK: 1\r\nK: 2\r\n\r\n")) ∧
    parseHeader (strBytes ("A b c\r\nK: 1\r\nK: 2\r\n\r\n")) =
      .ok (⟨(strBytes ("A"), strBytes ("b"), strBytes ("c")),
        [(strBytes ("K"), strBytes ("2"))]⟩, []) ∧
    ¬ List.Perm
        (fieldLinesOf ((serialize (Header.mk (strBytes ("A"), strBytes ("b"), strBytes ("c"))
          [(strBytes ("K"), strBytes ("2"))])).1))
        (fieldLinesOf (strBytes ("A b c\r\nK: 1\r\nK: 2\r\n\r\n"))) := by
  refine ⟨⟨(strBytes ("A"), strBytes ("b"), strBytes ("c")),
    [(strBytes ("K"), strBytes ("1")), (strBytes ("K"), strBytes ("2"))],
    by decide, by decide⟩, by decide, by decide⟩

/-! ### C2 — concrete request example -/

/-- C2: parsing `GET /x HTTP/1.1\r\nHost: a.com\r\n\r\nBODY` as a request
succeeds with method `GET`, uri `/x`, version `HTTP/1.1`, exactly the single
field `Host` mapped to `a.com`, and body bytes `BODY`. -/
theorem c2_request_example :
    parseRequest (strBytes ("GET /x HTTP/1.1\r\nHost: a.com\r\n\r\nBODY")) =
      .ok (⟨(strBytes ("GET"), strBytes ("/x"), strBytes ("HTTP/1.1")),
            [(strBytes ("Host"), strBytes ("a.com"))]⟩,
           strBytes ("BODY")) ∧
    requestMethod ⟨(strBytes ("GET"), strBytes ("/x"), strBytes ("HTTP/1.1")),
        [(strBytes ("Host"), strBytes ("a.com"))]⟩ = .ok (strBytes ("GET")) ∧
    requestUri ⟨(strBytes ("GET"), strBytes ("/x"), strBytes ("HTTP/1.1")),
        [(strBytes ("Host"), strBytes ("a.com"))]⟩ = .ok (strBytes ("/x")) ∧
    requestVersion ⟨(strBytes ("GET"), strBytes ("/x"), strBytes ("HTTP/1.1")),
        [(strBytes ("Host"), strBytes ("a.com"))]⟩ = .ok (strBytes ("HTTP/1.1")) ∧
    lookupField [(strBytes ("Host"), strBytes ("a.com"))] (strBytes ("Host")) =
      some (strBytes ("a.com")) :=
  ⟨by decide, by decide, by decide, by decide, by decide⟩

/-! ### Decomposing the parser -/

theorem parseHeader_none {bytes : List Nat} (h : findTerm bytes = none) :
    parseHeader bytes = .error .TruncatedData := by
  unfold parseHeader
  simp [splitnTerm2, h, collectMin]

theorem parseHeader_decomp (bytes : List Nat) (i : Nat) (hi : findTerm bytes = some i) :
    parseHeader bytes =
      match collectExact 3 (tokensOf bytes) with
      | none => .error .ProtocolViolation
      | some toks =>
        match parseFields (fieldLinesOf bytes) [] with
        | .error e => .error e
        | .ok m =>
          .ok (⟨(toks.getD 0 [], toks.getD 1 [], toks.getD 2 []), m⟩, bodyOf bytes) := by
  have hs : splitnTerm2 bytes = [bytes.take i, bytes.drop (i + 4)] := by
    simp [splitnTerm2, hi]
  have hblock : headerBlockOf bytes = bytes.take i := by simp [headerBlockOf, hs]
  have hbody : bodyOf bytes = bytes.drop (i + 4) := by simp [bodyOf, hs]
  cases hcr : splitCRLF (bytes.take i) with
  | nil => exact absurd hcr (splitCRLF_ne_nil _)
  | cons l1 rest2 =>
    have hlines : linesOf bytes = l1 :: rest2 := by simp [linesOf, hblock, hcr]
    have htoks : tokensOf bytes = splitSpace (trim l1) := by
      simp [tokensOf, firstLineOf, hlines]
    have hfl : fieldLinesOf bytes = rest2 := by simp [fieldLinesOf, hlines]
    unfold parseHeader
    rw [hs]
    rw [show collectMin 2 [bytes.take i, bytes.drop (i + 4)]
        = some [bytes.take i, bytes.drop (i + 4)] from by simp [collectMin]]
    rw [htoks, hfl, hbody]
    simp only [List.getD_cons_zero, List.getD_cons_succ, hcr]

/-! ### Facts about the field-line loop -/

theorem collectMin_some {k : Nat} {ps qs : List (List Nat)}
    (h : collectMin k ps = some qs) : qs = ps ∧ k ≤ ps.length := by
  unfold collectMin at h
  split at h
  · exact ⟨(Option.some.inj h).symm, by assumption⟩
  · simp at h

theorem collectExact_some {k : Nat} {ps qs : List (List Nat)}
    (h : collectExact k ps = some qs) : qs = ps ∧ ps.length = k := by
  unfold collectExact at h
  split at h
  · exact ⟨(Option.some.inj h).symm, by assumption⟩
  · simp at h

theorem collectExact_none {k : Nat} {ps : List (List Nat)}
    (h : ps.length ≠ k) : collectExact k ps = none := by
  simp [collectExact, h]

theorem parseLine_facts {line : List Nat} {kv : List Nat × List Nat}
    (h : parseLine line = some kv) :
    kv.1 = trim ((splitnColon2 line).getD 0 []) ∧ fieldKeyOKB kv.1 = true ∧
    kv.2 = trim ((splitnColon2 line).getD 1 []) ∧ asciiOKB kv.2 = true := by
  unfold parseLine at h
  cases hcm : collectMin 2 (splitnColon2 line) with
  | none => rw [hcm] at h; simp at h
  | some kvp =>
    obtain ⟨hkvp, -⟩ := collectMin_some hcm
    subst hkvp
    rw [hcm] at h
    replace h : (match dataHeaderFieldKey ((splitnColon2 line).getD 0 []),
        dataAscii (trim ((splitnColon2 line).getD 1 [])) with
      | some k, some v => some (k, v)
      | _, _ => none) = some kv := h
    cases hk : dataHeaderFieldKey ((splitnColon2 line).getD 0 []) with
    | none => rw [hk] at h; simp at h
    | some k0 =>
      cases hv : dataAscii (trim ((splitnColon2 line).getD 1 [])) with
      | none => rw [hk, hv] at h; simp at h
      | some v0 =>
        rw [hk, hv] at h
        have hkv : kv = (k0, v0) := by
          simp only [] at h
          exact (Option.some.inj h).symm
        unfold dataHeaderFieldKey at hk
        unfold dataAscii at hv
        split at hk
        · split at hv
          · have hk0 : k0 = trim ((splitnColon2 line).getD 0 []) :=
              (Option.some.inj hk).symm
            have hv0 : v0 = trim ((splitnColon2 line).getD 1 []) :=
              (Option.some.inj hv).symm
            refine ⟨by rw [hkv, hk0], by rw [hkv, hk0]; assumption,
              by rw [hkv, hv0], ?_⟩
            rw [hkv]
            show asciiOKB v0 = true
            rw [hv0]
            assumption
          · simp at hv
        · simp at hk

theorem parseLine_value_invalid {line : List Nat}
    (hv : asciiOKB (trim ((splitnColon2 line).getD 1 [])) = false) :
    parseLine line = none := by
  unfold parseLine
  cases hcm : collectMin 2 (splitnColon2 line) with
  | none => rfl
  | some kvp =>
    obtain ⟨hkvp, -⟩ := collectMin_some hcm
    subst hkvp
    show (match dataHeaderFieldKey ((splitnColon2 line).getD 0 []),
        dataAscii (trim ((splitnColon2 line).getD 1 [])) with
      | some k, some v => some (k, v)
      | _, _ => none) = none
    have hda : dataAscii (trim ((splitnColon2 line).getD 1 [])) = none := by
      unfold dataAscii
      rw [hv]
      rfl
    rw [hda]
    cases hk : dataHeaderFieldKey ((splitnColon2 line).getD 0 []) <;> rfl

theorem parseFields_no_trunc (lines : List (List Nat)) :
    ∀ m, parseFields lines m ≠ .error .TruncatedData := by
  induction lines with
  | nil =>
    intro m h
    simp [parseFields] at h
  | cons line rest ih =>
    intro m h
    cases hpl : parseLine line with
    | none =>
      rw [show parseFields (line :: rest) m
          = .error .ProtocolViolation from by simp [parseFields, hpl]] at h
      simp at h
    | some kv =>
      rw [show parseFields (line :: rest) m
          = parseFields rest (insertField m kv.1 kv.2) from by
        simp [parseFields, hpl]] at h
      exact ih _ h

theorem parseFields_badline (lines : List (List Nat)) :
    ∀ m, (∃ line ∈ lines, parseLine line = none) →
    parseFields lines m = .error .ProtocolViolation := by
  induction lines with
  | nil =>
    intro m h
    obtain ⟨line, hl, -⟩ := h
    simp at hl
  | cons line rest ih =>
    intro m h
    obtain ⟨bad, hbad, hbn⟩ := h
    rcases List.mem_cons.mp hbad with hb | hb
    · subst hb
      simp [parseFields, hbn]
    · cases hpl : parseLine line with
      | none => simp [parseFields, hpl]
      | some kv =>
        rw [show parseFields (line :: rest) m
            = parseFields rest (insertField m kv.1 kv.2) from by
          simp [parseFields, hpl]]
        exact ih _ ⟨bad, hb, hbn⟩

theorem parseLine_colonless {line : List Nat} (h : 58 ∉ line) : parseLine line = none := by
  have hf : findColon line = none := findColon_not_mem h
  simp [parseLine, splitnColon2, hf, collectMin]

/-! ### C3 — truncation -/

/-- C3: parse returns `TruncatedData` exactly when the input contains no
occurrence of the 4-byte terminator `\r\n\r\n`. -/
theorem c3_truncated_iff (bytes : List Nat) :
    parseHeader bytes = .error .TruncatedData ↔
      ¬ ∃ a b, bytes = a ++ 13 :: 10 :: 13 :: 10 :: b := by
  rw [← findTerm_none_iff]
  constructor
  · intro h
    cases hf : findTerm bytes with
    | none => rfl
    | some i =>
      rw [parseHeader_decomp bytes i hf] at h
      exfalso
      cases hce : collectExact 3 (tokensOf bytes) with
      | none =>
        rw [hce] at h
        simp at h
      | some toks =>
        rw [hce] at h
        cases hpf : parseFields (fieldLinesOf bytes) [] with
        | error e =>
          rw [hpf] at h
          have he : e = HttpError.TruncatedData := by simpa using h
          exact parseFields_no_trunc _ [] (he ▸ hpf)
        | ok m =>
          rw [hpf] at h
          simp at h
  · intro h
    exact parseHeader_none h

/-- Witness for C3 at the 1-byte input `G`. -/
theorem c3_truncated_iff_witness :
    parseHeader [71] = Except.error HttpError.TruncatedData :=
  (c3_truncated_iff [71]).mpr ((findTerm_none_iff [71]).mp rfl)

/-! ### C4 — status-line arity -/

/-- C4: with the terminator present, a trimmed first line splitting into any
number of space-separated tokens other than 3 makes parse fail with
`ProtocolViolation`; with exactly 3 tokens the status-line step succeeds and
the three tokens are stored positionally, the rest of the result being
determined by the field-line loop. -/
theorem c4_status_line_arity (bytes : List Nat)
    (hterm : ∃ a b, bytes = a ++ 13 :: 10 :: 13 :: 10 :: b) :
    ((tokensOf bytes).length ≠ 3 → parseHeader bytes = .error .ProtocolViolation) ∧
    ((tokensOf bytes).length = 3 →
      parseHeader bytes = (parseFields (fieldLinesOf bytes) []).map
        (fun m => (⟨((tokensOf bytes).getD 0 [], (tokensOf bytes).getD 1 [],
          (tokensOf bytes).getD 2 []), m⟩, bodyOf bytes))) := by
  obtain ⟨i, hi⟩ : ∃ i, findTerm bytes = some i := by
    cases hf : findTerm bytes with
    | none => exact absurd hterm ((findTerm_none_iff bytes).mp hf)
    | some i => exact ⟨i, rfl⟩
  constructor
  · intro hlen
    rw [parseHeader_decomp bytes i hi]
    rw [collectExact_none hlen]
  · intro hlen
    rw [parseHeader_decomp bytes i hi]
    rw [show collectExact 3 (tokensOf bytes) = some (tokensOf bytes) from by
      simp [collectExact, hlen]]
    cases hpf : parseFields (fieldLinesOf bytes) [] <;> simp [Except.map]

/-- Witness for C4 at a 2-token status line. -/
theorem c4_status_line_arity_witness :
    parseHeader (strBytes ("A b\r\n\r\n")) = .error .ProtocolViolation :=
  (c4_status_line_arity (strBytes ("A b\r\n\r\n"))
    ⟨strBytes ("A b"), [], by decide⟩).1 (by decide)

/-! ### C5 — field-line colon requirement -/

/-- C5: a field line without a `:` byte makes parse fail with
`ProtocolViolation`, and `X-Empty:` parses to the key `X-Empty` mapped to the
empty value. -/
theorem c5_field_colon :
    (∀ bytes, (∃ a b, bytes = a ++ 13 :: 10 :: 13 :: 10 :: b) →
      (∃ line ∈ fieldLinesOf bytes, 58 ∉ line) →
      parseHeader bytes = .error .ProtocolViolation) ∧
    parseHeader (strBytes ("A b c\r\nX-Empty:\r\n\r\n")) =
      .ok (⟨(strBytes ("A"), strBytes ("b"), strBytes ("c")),
        [(strBytes ("X-Empty"), [])]⟩, []) ∧
    lookupField [(strBytes ("X-Empty"), [])] (strBytes ("X-Empty")) = some [] := by
  refine ⟨?_, by decide, by decide⟩
  intro bytes hterm hbad
  obtain ⟨i, hi⟩ : ∃ i, findTerm bytes = some i := by
    cases hf : findTerm bytes with
    | none => exact absurd hterm ((findTerm_none_iff bytes).mp hf)
    | some i => exact ⟨i, rfl⟩
  rw [parseHeader_decomp bytes i hi]
  have hpf : parseFields (fieldLinesOf bytes) [] = .error .ProtocolViolation := by
    apply parseFields_badline
    obtain ⟨line, hl, h58⟩ := hbad
    exact ⟨line, hl, parseLine_colonless h58⟩
  cases hce : collectExact 3 (tokensOf bytes) with
  | none => rfl
  | some toks =>
    rw [hpf]

/-- Witness for C5 at a colonless field line. -/
theorem c5_field_colon_witness :
    parseHeader (strBytes ("A b c\r\nnope\r\n\r\n")) = .error .ProtocolViolation :=
  c5_field_colon.1 (strBytes ("A b c\r\nnope\r\n\r\n"))
    ⟨strBytes ("A b c\r\nnope"), [], by decide⟩
    ⟨strBytes ("nope"), by decide, by decide⟩

/-! ### C6 — last-wins duplicates -/

theorem lookup_insert_self (m : List (List Nat × List Nat)) (k v : List Nat) :
    lookupField (insertField m k v) k = some v := by
  induction m with
  | nil => simp [insertField, lookupField]
  | cons e m ih =>
    by_cases he : e.1 = k
    · rw [show insertField (e :: m) k v = insertField m k v from by
        simp [insertField, List.filter_cons, he]]
      exact ih
    · rw [show insertField (e :: m) k v = e :: insertField m k v from by
        simp [insertField, List.filter_cons, he]]
      rw [show lookupField (e :: insertField m k v) k
          = lookupField (insertField m k v) k from by simp [lookupField, he]]
      exact ih

theorem lookup_insert_ne (m : List (List Nat × List Nat)) (k v k' : List Nat)
    (h : k' ≠ k) : lookupField (insertField m k v) k' = lookupField m k' := by
  induction m with
  | nil =>
    simp [insertField, lookupField]
    exact fun hc => h hc.symm
  | cons e m ih =>
    by_cases he : e.1 = k
    · have hek' : ¬ e.1 = k' := by
        rw [he]
        exact fun hc => h hc.symm
      rw [show insertField (e :: m) k v = insertField m k v from by
        simp [insertField, List.filter_cons, he]]
      rw [ih]
      rw [show lookupField (e :: m) k' = lookupField m k' from by
        simp [lookupField, hek']]
    · rw [show insertField (e :: m) k v = e :: insertField m k v from by
        simp [insertField, List.filter_cons, he]]
      by_cases he' : e.1 = k'
      · simp [lookupField, he']
      · rw [show lookupField (e :: insertField m k v) k'
            = lookupField (insertField m k v) k' from by simp [lookupField, he']]
        rw [show lookupField (e :: m) k' = lookupField m k' from by
          simp [lookupField, he']]
        exact ih

theorem parseFields_lookup (lines : List (List Nat)) :
    ∀ m m', parseFields lines m = .ok m' → ∀ k,
    (match lastFieldValue lines k with
     | some v => lookupField m' k = some v
     | none => lookupField m' k = lookupField m k) := by
  induction lines with
  | nil =>
    intro m m' h k
    have hm : m = m' := Except.ok.inj h
    subst hm
    simp [lastFieldValue]
  | cons line rest ih =>
    intro m m' h k
    cases hpl : parseLine line with
    | none =>
      rw [show parseFields (line :: rest) m = .error .ProtocolViolation from by
        simp [parseFields, hpl]] at h
      simp at h
    | some kv =>
      rw [show parseFields (line :: rest) m
          = parseFields rest (insertField m kv.1 kv.2) from by
        simp [parseFields, hpl]] at h
      have hrec := ih _ _ h k
      cases hlast : lastFieldValue rest k with
      | some v =>
        rw [hlast] at hrec
        rw [show lastFieldValue (line :: rest) k = some v from by
          simp [lastFieldValue, hlast]]
        exact hrec
      | none =>
        have h2 : lookupField m' k = lookupField (insertField m kv.1 kv.2) k := by
          rw [hlast] at hrec
          exact hrec
        rw [show lastFieldValue (line :: rest) k
            = (if kv.1 = k then some kv.2 else none) from by
          simp [lastFieldValue, hlast, hpl]]
        by_cases hk : kv.1 = k
        · rw [if_pos hk]
          show lookupField m' k = some kv.2
          rw [h2, ← hk]
          exact lookup_insert_self m kv.1 kv.2
        · rw [if_neg hk]
          show lookupField m' k = lookupField m k
          rw [h2]
          exact lookup_insert_ne m kv.1 kv.2 k (fun hc => hk hc.symm)

/-- C6: whenever the field-line loop succeeds, a name occurring on several
field lines is mapped to the value of its last occurrence; in particular
`A: 1\r\nA: 2` after a valid status line yields `A ↦ 2`. -/
theorem c6_last_wins :
    (∀ lines m m' k v, parseFields lines m = .ok m' →
      lastFieldValue lines k = some v → lookupField m' k = some v) ∧
    parseHeader (strBytes ("A b c\r\nA: 1\r\nA: 2\r\n\r\n")) =
      .ok (⟨(strBytes ("A"), strBytes ("b"), strBytes ("c")),
        [(strBytes ("A"), strBytes ("2"))]⟩, []) ∧
    lookupField [(strBytes ("A"), strBytes ("2"))] (strBytes ("A")) =
      some (strBytes ("2")) := by
  refine ⟨?_, by decide, by decide⟩
  intro lines m m' k v hpf hlast
  have hrec := parseFields_lookup lines m m' hpf k
  rw [hlast] at hrec
  exact hrec

/-- Witness for C6 at the duplicate field lines `A: 1`, `A: 2`. -/
theorem c6_last_wins_witness :
    lookupField [(strBytes ("A"), strBytes ("2"))] (strBytes ("A")) =
      some (strBytes ("2")) :=
  c6_last_wins.1 [strBytes ("A: 1"), strBytes ("A: 2")] []
    [(strBytes ("A"), strBytes ("2"))] (strBytes ("A")) (strBytes ("2"))
    (by decide) (by decide)

/-! ### C7 — trimming and eager value validation -/

/-- Counterexample to C7 as stated: the only defect of the first input is the
non-ASCII byte 255 in the field value (the same input with value `v` parses),
yet parse itself fails with `ProtocolViolation` — value validation is not
deferred to the accessors. -/
theorem c7_counterexample :
    parseHeader (strBytes ("A b c\r\nK: ") ++ [255] ++ strBytes ("\r\n\r\n")) =
      .error .ProtocolViolation ∧
    parseHeader (strBytes ("A b c\r\nK: v\r\n\r\n")) =
      .ok (⟨(strBytes ("A"), strBytes ("b"), strBytes ("c")),
        [(strBytes ("K"), strBytes ("v"))]⟩, []) :=
  ⟨by decide, by decide⟩

/-- C7 (amended): during parse, each field line's key is trimmed and validated
as a header-field-name and its value is trimmed and validated against the
Ascii class eagerly; a field line whose trimmed value fails the Ascii class
makes parse itself fail with `ProtocolViolation`. -/
theorem c7_trim_validate :
    (∀ line kv, parseLine line = some kv →
      kv.1 = trim ((splitnColon2 line).getD 0 []) ∧ fieldKeyOKB kv.1 = true ∧
      kv.2 = trim ((splitnColon2 line).getD 1 []) ∧ asciiOKB kv.2 = true) ∧
    (∀ bytes, (∃ a b, bytes = a ++ 13 :: 10 :: 13 :: 10 :: b) →
      (∃ line ∈ fieldLinesOf bytes,
        asciiOKB (trim ((splitnColon2 line).getD 1 [])) = false) →
      parseHeader bytes = .error .ProtocolViolation) := by
  refine ⟨fun line kv h => parseLine_facts h, ?_⟩
  intro bytes hterm hbad
  obtain ⟨i, hi⟩ : ∃ i, findTerm bytes = some i := by
    cases hf : findTerm bytes with
    | none => exact absurd hterm ((findTerm_none_iff bytes).mp hf)
    | some i => exact ⟨i, rfl⟩
  rw [parseHeader_decomp bytes i hi]
  have hpf : parseFields (fieldLinesOf bytes) [] = .error .ProtocolViolation := by
    apply parseFields_badline
    obtain ⟨line, hl, hv⟩ := hbad
    exact ⟨line, hl, parseLine_value_invalid hv⟩
  cases hce : collectExact 3 (tokensOf bytes) with
  | none => rfl
  | some toks =>
    rw [hpf]

/-- Witness for C7 at the field line `K: v`. -/
theorem c7_trim_validate_witness :
    strBytes ("K") = trim ((splitnColon2 (strBytes ("K: v"))).getD 0 []) ∧
    fieldKeyOKB (strBytes ("K")) = true ∧
    strBytes ("v") = trim ((splitnColon2 (strBytes ("K: v"))).getD 1 []) ∧
    asciiOKB (strBytes ("v")) = true :=
  c7_trim_validate.1 (strBytes ("K: v")) (strBytes ("K"), strBytes ("v")) (by decide)

/-! ### C8 — serialization layout and byte count -/

/-- C8: `serialize` writes exactly the three triple slices joined by single
spaces and `\r\n`, then `key ": " value \r\n` for each mapping entry in
iteration order, then a final bare `\r\n`; the returned count equals the
number of bytes written. -/
theorem c8_serialize_layout (h : Header) :
    (serialize h).1 =
      h.header_line.1 ++ 32 :: (h.header_line.2.1 ++ 32 :: (h.header_line.2.2
        ++ 13 :: 10 :: (serTail h.header_fields ++ [13, 10]))) ∧
    (serialize h).2 = (serialize h).1.length :=
  ⟨serialize_bytes h, serialize_count h⟩

/-! ### C9 — status-code range -/

/-- C9: `HTTP/1.1 70000 X` parses as a response; the `status()` accessor
fails with `ProtocolViolation`; in general `status()` returns the decimal
value of slot 1 when it fits 16 unsigned bits and `ProtocolViolation` when
the valid integer is out of range. -/
theorem c9_status_range :
    (parseResponse (strBytes ("HTTP/1.1 70000 X\r\n\r\n")) =
      .ok (⟨(strBytes ("HTTP/1.1"), strBytes ("70000"), strBytes ("X")), []⟩, []) ∧
     responseStatus ⟨(strBytes ("HTTP/1.1"), strBytes ("70000"), strBytes ("X")), []⟩ =
      .error .ProtocolViolation) ∧
    (∀ h n, dataInteger h.header_line.2.1 = some n →
      (n < 65536 → responseStatus h = .ok n) ∧
      (65536 ≤ n → responseStatus h = .error .ProtocolViolation)) := by
  refine ⟨⟨by decide, by decide⟩, ?_⟩
  intro h n hn
  constructor
  · intro hlt
    unfold responseStatus
    rw [hn]
    show (if n < 65536 then Except.ok n
      else Except.error HttpError.ProtocolViolation) = Except.ok n
    rw [if_pos hlt]
  · intro hge
    unfold responseStatus
    rw [hn]
    show (if n < 65536 then Except.ok n
      else Except.error HttpError.ProtocolViolation)
        = Except.error HttpError.ProtocolViolation
    rw [if_neg (by omega)]

/-- Witness for C9 at the out-of-range status 70000. -/
theorem c9_status_range_witness :
    responseStatus ⟨([72], strBytes ("70000"), [88]), []⟩ =
      .error .ProtocolViolation :=
  (c9_status_range.2 ⟨([72], strBytes ("70000"), [88]), []⟩ 70000 (by decide)).2
    (by decide)

/-! ### C10 — parsed fields carry validated data -/

theorem parseFields_valid (lines : List (List Nat)) :
    ∀ m m', parseFields lines m = .ok m' →
    (∀ kv ∈ m, fieldKeyOKB kv.1 = true ∧ asciiOKB kv.2 = true) →
    ∀ kv ∈ m', fieldKeyOKB kv.1 = true ∧ asciiOKB kv.2 = true := by
  induction lines with
  | nil =>
    intro m m' h hm
    have hmm : m = m' := Except.ok.inj h
    exact hmm ▸ hm
  | cons line rest ih =>
    intro m m' h hm
    cases hpl : parseLine line with
    | none =>
      rw [show parseFields (line :: rest) m = .error .ProtocolViolation from by
        simp [parseFields, hpl]] at h
      simp at h
    | some kv =>
      rw [show parseFields (line :: rest) m
          = parseFields rest (insertField m kv.1 kv.2) from by
        simp [parseFields, hpl]] at h
      refine ih _ _ h ?_
      intro e he
      simp only [insertField] at he
      rcases List.mem_append.mp he with he | he
      · exact hm e (List.mem_of_mem_filter he)
      · rw [List.mem_singleton.mp he]
        obtain ⟨-, hk, -, hv⟩ := parseLine_facts hpl
        exact ⟨hk, hv⟩

/-- C10: whenever parse succeeds, every stored field key already satisfies the
header-field-name class and every stored value already satisfies the Ascii
class — both typed wrappers were constructed during parse. -/
theorem c10_fields_validated (bytes : List Nat) (h : Header) (rest : List Nat)
    (hp : parseHeader bytes = .ok (h, rest)) :
    ∀ kv ∈ h.header_fields, fieldKeyOKB kv.1 = true ∧ asciiOKB kv.2 = true := by
  cases hf : findTerm bytes with
  | none =>
    rw [parseHeader_none hf] at hp
    simp at hp
  | some i =>
    rw [parseHeader_decomp bytes i hf] at hp
    cases hce : collectExact 3 (tokensOf bytes) with
    | none =>
      rw [hce] at hp
      simp at hp
    | some toks =>
      rw [hce] at hp
      cases hpf : parseFields (fieldLinesOf bytes) [] with
      | error e =>
        rw [hpf] at hp
        simp at hp
      | ok m =>
        rw [hpf] at hp
        replace hp : (Except.ok
            ((Header.mk (toks.getD 0 [], toks.getD 1 [], toks.getD 2 []) m),
              bodyOf bytes) : Except HttpError (Header × List Nat)) = .ok (h, rest) := hp
        have hpair := Except.ok.inj hp
        have hh : Header.mk (toks.getD 0 [], toks.getD 1 [], toks.getD 2 []) m = h :=
          congrArg Prod.fst hpair
        have hm : m = h.header_fields := by
          rw [← hh]
        exact hm ▸ parseFields_valid (fieldLinesOf bytes) [] m hpf (by simp)

/-- Witness for C10 at the C2 example input. -/
theorem c10_fields_validated_witness :
    fieldKeyOKB (strBytes ("Host")) = true ∧ asciiOKB (strBytes ("a.com")) = true :=
  c10_fields_validated (strBytes ("GET /x HTTP/1.1\r\nHost: a.com\r\n\r\nBODY"))
    ⟨(strBytes ("GET"), strBytes ("/x"), strBytes ("HTTP/1.1")),
      [(strBytes ("Host"), strBytes ("a.com"))]⟩
    (strBytes ("BODY")) (by decide)
    (strBytes ("Host"), strBytes ("a.com")) (by decide)
